import Mathlib

/-!
A shallow embedding of the `Symbol` validated-identifier type from
`maytrix-value` (file `src/maytrix-value/src/symbol.rs`), together with
proofs of the specified properties.

Rust strings are modelled as `List Char`: a Rust `String`/`&str` is valid
UTF-8, its `chars()` iterator yields Unicode scalar values, and Lean's
`Char` is exactly a Unicode scalar value.  Byte-lexicographic order of
UTF-8 encoded strings coincides with codepoint-lexicographic order of
their scalar-value sequences, so `str::cmp` is modelled as the
lexicographic comparison of the `List Char` by codepoint.
-/

namespace Maytrix

/-- Rust `char::is_ascii_lowercase`: the codepoint lies in `'a' ..= 'z'`
(97 to 122). -/
def is_ascii_lowercase (c : Char) : Bool :=
  97 ≤ c.toNat && c.toNat ≤ 122

/-- Rust `char::is_ascii_digit`: the codepoint lies in `'0' ..= '9'`
(48 to 57). -/
def is_ascii_digit (c : Char) : Bool :=
  48 ≤ c.toNat && c.toNat ≤ 57

/-- The `Symbol` struct: a single private field `value: String`. -/
structure Symbol where
  value : List Char
deriving DecidableEq

/-- The unit error struct `SymbolError`. -/
inductive SymbolError where
  | mk : SymbolError
deriving DecidableEq

/-- `Symbol::is_valid`: the first character must exist and be an ASCII
lowercase letter; every remaining character must be an ASCII lowercase
letter, an ASCII digit, or an underscore. -/
def Symbol.is_valid (s : List Char) : Bool :=
  match s with
  | [] => false
  | first :: rest =>
    if is_ascii_lowercase first then
      rest.all (fun c => is_ascii_lowercase c || is_ascii_digit c || c == '_')
    else
      false

/-- `Symbol::try_new`: validate, then either wrap the input or return
`SymbolError`. -/
def Symbol.try_new (s : List Char) : Except SymbolError Symbol :=
  if Symbol.is_valid s then Except.ok ⟨s⟩ else Except.error SymbolError.mk

/-- `Symbol::as_str`: return the inner string. -/
def Symbol.as_str (sym : Symbol) : List Char :=
  sym.value

/-- The `Display` impl: delegates to the inner `String`, which renders the
stored text verbatim. -/
def Symbol.display (sym : Symbol) : List Char :=
  sym.value

/-- The `Deref<Target = str>` impl: `as_str`. -/
def Symbol.deref (sym : Symbol) : List Char :=
  sym.as_str

/-- The `FromStr` impl: delegates to `Symbol::try_new`. -/
def Symbol.from_str (s : List Char) : Except SymbolError Symbol :=
  Symbol.try_new s

/-- The `TryFrom<&str>` impl: delegates to `Symbol::try_new`. -/
def Symbol.try_from_str (s : List Char) : Except SymbolError Symbol :=
  Symbol.try_new s

/-- The `TryFrom<String>` impl: delegates to `Symbol::try_new`. -/
def Symbol.try_from_string (s : List Char) : Except SymbolError Symbol :=
  Symbol.try_new s

/-- The `AsRef<str>` impl: `as_str`. -/
def Symbol.as_ref (sym : Symbol) : List Char :=
  sym.as_str

/-- The `Borrow<str>` impl: `as_str`. -/
def Symbol.borrow (sym : Symbol) : List Char :=
  sym.as_str

/-- The derived `Clone` impl: clone the single field (a `String` clone
yields an equal string). -/
def Symbol.clone (sym : Symbol) : Symbol :=
  ⟨sym.value⟩

/-- The derived `PartialEq`/`Eq` impl: field-wise comparison of the single
`value` field. -/
def Symbol.beq (a b : Symbol) : Bool :=
  a.value == b.value

/-- The `PartialEq<&str> for Symbol` impl: `self.as_str() == *other`. -/
def Symbol.eq_str (sym : Symbol) (other : List Char) : Bool :=
  sym.as_str == other

/-- The `PartialEq<Symbol> for &str` impl: `*self == other.as_str()`. -/
def str_eq_symbol (s : List Char) (other : Symbol) : Bool :=
  s == other.as_str

/-- The `PartialEq<String> for Symbol` impl: `self.as_str() == other.as_str()`. -/
def Symbol.eq_string (sym : Symbol) (other : List Char) : Bool :=
  sym.as_str == other

/-- The `PartialEq<Symbol> for String` impl: `self.as_str() == other.as_str()`. -/
def string_eq_symbol (s : List Char) (other : Symbol) : Bool :=
  s == other.as_str

/-- Rust `str::cmp` (the `Ord` impl on `str`): byte-lexicographic order of
the UTF-8 encodings, which equals codepoint-lexicographic order of the
scalar-value sequences. -/
def strCmp : List Char → List Char → Ordering
  | [], [] => Ordering.eq
  | [], _ :: _ => Ordering.lt
  | _ :: _, [] => Ordering.gt
  | a :: xs, b :: ys =>
    if a.toNat < b.toNat then Ordering.lt
    else if b.toNat < a.toNat then Ordering.gt
    else strCmp xs ys

/-- The manual `Ord for Symbol` impl: `self.as_str().cmp(other.as_str())`. -/
def Symbol.cmp (a b : Symbol) : Ordering :=
  strCmp a.as_str b.as_str

/-- The manual `PartialOrd for Symbol` impl:
`Some(self.as_str().cmp(other.as_str()))`. -/
def Symbol.partial_cmp (a b : Symbol) : Option Ordering :=
  some (strCmp a.as_str b.as_str)

/-- `From<Symbol> for String`: moves out the stored `value`. -/
def string_from_symbol (sym : Symbol) : List Char :=
  sym.value

/-- `From<Symbol> for Box<str>`: `value.into_boxed_str()`, which keeps the
contents unchanged. -/
def boxed_str_from_symbol (sym : Symbol) : List Char :=
  sym.value

/-- The derived `Hash` impl hashes the single `value` field with the
`String` hasher (which is the `str` hasher on the contents); it is
modelled parametrically in the hasher's string-hash function `hf`. -/
def Symbol.hash_with (hf : List Char → Nat) (sym : Symbol) : Nat :=
  hf sym.value

/-- The `Display` impl of `SymbolError`: a fixed message, independent of
the rejected input. -/
def SymbolError.display (_e : SymbolError) : List Char :=
  "value must match ^[a-z][a-z0-9_]*$".data

/-- A `Symbol` obtainable through the public API: produced by `try_new`,
`FromStr::from_str`, `TryFrom<&str>`, `TryFrom<String>`, or by cloning an
obtainable one.  (The `value` field itself is private.) -/
inductive Symbol.Reachable : Symbol → Prop
  | of_try_new (s : List Char) (sym : Symbol) :
      Symbol.try_new s = Except.ok sym → Symbol.Reachable sym
  | of_from_str (s : List Char) (sym : Symbol) :
      Symbol.from_str s = Except.ok sym → Symbol.Reachable sym
  | of_try_from_str (s : List Char) (sym : Symbol) :
      Symbol.try_from_str s = Except.ok sym → Symbol.Reachable sym
  | of_try_from_string (s : List Char) (sym : Symbol) :
      Symbol.try_from_string s = Except.ok sym → Symbol.Reachable sym
  | of_clone (sym : Symbol) :
      Symbol.Reachable sym → Symbol.Reachable sym.clone

/-- The spec's pattern `^[a-z][a-z0-9_]*$`, written from the spec's words:
the string is non-empty, its first character is an ASCII lowercase letter,
and every subsequent character is an ASCII lowercase letter, an ASCII
digit, or an underscore. -/
def SpecPattern (s : List Char) : Prop :=
  ∃ first rest, s = first :: rest ∧ ('a' ≤ first ∧ first ≤ 'z') ∧
    ∀ c ∈ rest, ('a' ≤ c ∧ c ≤ 'z') ∨ ('0' ≤ c ∧ c ≤ '9') ∨ c = '_'

/-- Lexicographic order on character sequences, written from the spec's
words ("the natural lexicographic (byte/codepoint) ordering of the stored
text"): either the left sequence is a proper prefix of the right, or at
the first differing position the left character has the smaller
codepoint. -/
inductive LexLt : List Char → List Char → Prop
  | nil (c : Char) (cs : List Char) : LexLt [] (c :: cs)
  | head {a b : Char} (xs ys : List Char) : a < b → LexLt (a :: xs) (b :: ys)
  | tail {a : Char} {xs ys : List Char} : LexLt xs ys → LexLt (a :: xs) (a :: ys)

/-- Stable insertion into a list sorted by `Symbol.cmp` (models inserting
into the sorted prefix during `Vec::sort`, which sorts by the `Ord`
impl). -/
def insert_symbol (x : Symbol) : List Symbol → List Symbol
  | [] => [x]
  | y :: ys =>
    if Symbol.cmp x y = Ordering.gt then y :: insert_symbol x ys
    else x :: y :: ys

/-- Sorting a list of `Symbol`s by the `Ord` impl (the effect of
`Vec::sort` on the comparison results). -/
def sort_symbols (l : List Symbol) : List Symbol :=
  l.foldr insert_symbol []

theorem is_ascii_lowercase_iff (c : Char) :
    is_ascii_lowercase c = true ↔ ('a' ≤ c ∧ c ≤ 'z') := by
  simp only [is_ascii_lowercase, Bool.and_eq_true, decide_eq_true_eq,
    Char.le_def, UInt32.le_def, BitVec.le_def, Char.toNat, UInt32.toNat,
    show ('a').val.toBitVec.toNat = 97 from rfl,
    show ('z').val.toBitVec.toNat = 122 from rfl]

theorem is_ascii_digit_iff (c : Char) :
    is_ascii_digit c = true ↔ ('0' ≤ c ∧ c ≤ '9') := by
  simp only [is_ascii_digit, Bool.and_eq_true, decide_eq_true_eq,
    Char.le_def, UInt32.le_def, BitVec.le_def, Char.toNat, UInt32.toNat,
    show ('0').val.toBitVec.toNat = 48 from rfl,
    show ('9').val.toBitVec.toNat = 57 from rfl]

/-- C1: for every string `s`, `Symbol::is_valid(s)` returns `true` iff `s`
matches `^[a-z][a-z0-9_]*$`: `s` is non-empty, its first character is an
ASCII lowercase letter, and every later character is an ASCII lowercase
letter, an ASCII digit, or an underscore. -/
theorem is_valid_iff_spec_pattern (s : List Char) :
    Symbol.is_valid s = true ↔ SpecPattern s := by
  cases s with
  | nil => simp [Symbol.is_valid, SpecPattern]
  | cons first rest =>
    simp only [Symbol.is_valid, SpecPattern]
    by_cases hf : is_ascii_lowercase first = true
    · simp only [hf, if_pos, List.all_eq_true, Bool.or_eq_true, beq_iff_eq]
      constructor
      · intro h
        exact ⟨first, rest, rfl, (is_ascii_lowercase_iff first).mp hf, by
          intro c hc
          rcases h c hc with h1 | h2
          · rcases h1 with h1 | h1
            · exact Or.inl ((is_ascii_lowercase_iff c).mp h1)
            · exact Or.inr (Or.inl ((is_ascii_digit_iff c).mp h1))
          · exact Or.inr (Or.inr h2)⟩
      · rintro ⟨f, r, heq, _, hrest⟩
        injection heq with h1 h2
        subst h1
        subst h2
        intro c hc
        rcases hrest c hc with h1 | h2 | h3
        · exact Or.inl (Or.inl ((is_ascii_lowercase_iff c).mpr h1))
        · exact Or.inl (Or.inr ((is_ascii_digit_iff c).mpr h2))
        · exact Or.inr h3
    · simp only [hf]
      simp only [Bool.false_eq_true, if_false, false_iff]
      rintro ⟨f, r, heq, hlow, _⟩
      injection heq with h1 h2
      subst h1
      exact hf ((is_ascii_lowercase_iff first).mpr hlow)


/-- C2: `Symbol::try_new(s)` returns `Ok` iff `Symbol::is_valid(s)` is
true (constructor and validator never diverge), and when it returns `Ok`,
`as_str` on the resulting `Symbol` yields exactly the original input. -/
theorem try_new_ok_iff_is_valid (s : List Char) :
    ((Symbol.try_new s).isOk = Symbol.is_valid s) ∧
    (∀ sym : Symbol, Symbol.try_new s = Except.ok sym → sym.as_str = s) := by
  constructor
  · cases hv : Symbol.is_valid s <;>
      simp [Symbol.try_new, hv, Except.isOk, Except.toBool]
  · intro sym hsym
    cases hv : Symbol.is_valid s
    · simp [Symbol.try_new, hv] at hsym
    · simp only [Symbol.try_new, hv, if_true] at hsym
      injection hsym with h2
      subst h2
      rfl

/-- Witness for C2 at the concrete input `"ok"`. -/
theorem try_new_ok_iff_is_valid_witness :
    Symbol.as_str ⟨['o', 'k']⟩ = ['o', 'k'] :=
  (try_new_ok_iff_is_valid ['o', 'k']).2 ⟨['o', 'k']⟩ (by rfl)

theorem try_new_ok_valid {s : List Char} {sym : Symbol}
    (h : Symbol.try_new s = Except.ok sym) :
    Symbol.is_valid sym.value = true := by
  cases hv : Symbol.is_valid s
  · simp [Symbol.try_new, hv] at h
  · simp only [Symbol.try_new, hv, if_true] at h
    injection h with h2
    subst h2
    exact hv

/-- C3: every `Symbol` obtainable through the public API (`try_new`,
`FromStr`, `TryFrom<&str>`, `TryFrom<String>`, `Clone`) stores a value
satisfying the pattern, and the operations on a `Symbol` leave the stored
value unchanged: there is no construction path yielding invalid content. -/
theorem reachable_symbol_invariant (sym : Symbol) (h : Symbol.Reachable sym) :
    Symbol.is_valid sym.value = true ∧
    sym.clone.value = sym.value ∧
    Symbol.as_str sym = sym.value ∧
    Symbol.display sym = sym.value := by
  refine ⟨?_, rfl, rfl, rfl⟩
  induction h with
  | of_try_new s sm hok => exact try_new_ok_valid hok
  | of_from_str s sm hok => exact try_new_ok_valid hok
  | of_try_from_str s sm hok => exact try_new_ok_valid hok
  | of_try_from_string s sm hok => exact try_new_ok_valid hok
  | of_clone sm _ ih => exact ih

/-- Witness for C3: the symbol constructed from `"a"` is reachable and its
stored value is valid. -/
theorem reachable_symbol_invariant_witness :
    Symbol.is_valid (Symbol.mk ['a']).value = true :=
  (reachable_symbol_invariant ⟨['a']⟩
    (Symbol.Reachable.of_try_new ['a'] ⟨['a']⟩ (by rfl))).1

/-- C4: equality of `Symbol`s is determined solely by the stored text (an
equivalence relation: reflexive, symmetric, transitive), and a `Symbol`
compares equal to a plain string, in both directions and for both the
borrowed and owned string impls, exactly when the character sequences
match. -/
theorem symbol_eq_iff_text_eq (a b c : Symbol) (s : List Char) :
    (a.beq b = true ↔ a.as_str = b.as_str) ∧
    a.beq a = true ∧
    a.beq b = b.beq a ∧
    (a.beq b = true → b.beq c = true → a.beq c = true) ∧
    (a.eq_str s = true ↔ a.as_str = s) ∧
    str_eq_symbol s a = a.eq_str s ∧
    (a.eq_string s = true ↔ a.as_str = s) ∧
    string_eq_symbol s a = a.eq_string s := by
  refine ⟨?_, ?_, ?_, ?_, ?_, ?_, ?_, ?_⟩
  · simp [Symbol.beq, Symbol.as_str]
  · simp [Symbol.beq]
  · by_cases h : a.value = b.value
    · simp [Symbol.beq, h]
    · simp [Symbol.beq, h, Ne.symm h]
  · intro h1 h2
    simp only [Symbol.beq, beq_iff_eq] at *
    exact h1.trans h2
  · simp [Symbol.eq_str, Symbol.as_str]
  · by_cases h : s = a.as_str
    · simp [str_eq_symbol, Symbol.eq_str, h]
    · simp [str_eq_symbol, Symbol.eq_str, h, Ne.symm h]
  · simp [Symbol.eq_string, Symbol.as_str]
  · by_cases h : s = a.as_str
    · simp [string_eq_symbol, Symbol.eq_string, h]
    · simp [string_eq_symbol, Symbol.eq_string, h, Ne.symm h]

/-- Witness for C4: transitivity applied at three symbols holding `"ab"`. -/
theorem symbol_eq_iff_text_eq_witness :
    Symbol.beq ⟨['a', 'b']⟩ ⟨['a', 'b']⟩ = true :=
  (symbol_eq_iff_text_eq ⟨['a', 'b']⟩ ⟨['a', 'b']⟩ ⟨['a', 'b']⟩ []).2.2.2.1
    (by decide) (by decide)

theorem char_toNat_inj {a b : Char} (h : a.toNat = b.toNat) : a = b :=
  Char.ext (UInt32.ext h)

theorem char_lt_iff_toNat_lt (a b : Char) : a < b ↔ a.toNat < b.toNat := by
  simp only [Char.lt_def, UInt32.lt_def, BitVec.lt_def, Char.toNat, UInt32.toNat]

theorem strCmp_eq_iff (xs ys : List Char) :
    strCmp xs ys = Ordering.eq ↔ xs = ys := by
  induction xs generalizing ys with
  | nil => cases ys <;> simp [strCmp]
  | cons a xs ih =>
    cases ys with
    | nil => simp [strCmp]
    | cons b ys =>
      by_cases h1 : a.toNat < b.toNat
      · have hne : a ≠ b := fun h => by subst h; omega
        simp [strCmp, h1, hne]
      · by_cases h2 : b.toNat < a.toNat
        · have hne : a ≠ b := fun h => by subst h; omega
          simp [strCmp, h1, h2, hne]
        · have heq : a = b := char_toNat_inj (by omega)
          subst heq
          simp [strCmp, h1, h2, ih]

theorem strCmp_lt_iff (xs ys : List Char) :
    strCmp xs ys = Ordering.lt ↔ LexLt xs ys := by
  induction xs generalizing ys with
  | nil =>
    cases ys with
    | nil =>
      simp only [strCmp]
      constructor
      · intro h
        cases h
      · intro h
        cases h
    | cons b ys =>
      simp only [strCmp, true_iff]
      exact LexLt.nil b ys
  | cons a xs ih =>
    cases ys with
    | nil =>
      simp only [strCmp]
      constructor
      · intro h
        cases h
      · intro h
        cases h
    | cons b ys =>
      by_cases h1 : a.toNat < b.toNat
      · simp only [strCmp, if_pos h1, true_iff]
        exact LexLt.head xs ys ((char_lt_iff_toNat_lt a b).mpr h1)
      · by_cases h2 : b.toNat < a.toNat
        · simp only [strCmp, if_neg h1, if_pos h2]
          constructor
          · intro h
            cases h
          · intro h
            cases h with
            | head _ _ hlt =>
              exact absurd ((char_lt_iff_toNat_lt a b).mp hlt) h1
            | tail _ => omega
        · have heq : a = b := char_toNat_inj (by omega)
          subst heq
          simp only [strCmp, if_neg h1, if_neg h2]
          rw [ih]
          constructor
          · exact fun h => LexLt.tail h
          · intro h
            cases h with
            | head _ _ hlt => exact absurd hlt (lt_irrefl a)
            | tail h => exact h

theorem strCmp_gt_iff_lt (xs ys : List Char) :
    strCmp xs ys = Ordering.gt ↔ strCmp ys xs = Ordering.lt := by
  induction xs generalizing ys with
  | nil => cases ys <;> simp [strCmp]
  | cons a xs ih =>
    cases ys with
    | nil => simp [strCmp]
    | cons b ys =>
      by_cases h1 : a.toNat < b.toNat
      · have h2 : ¬ b.toNat < a.toNat := by omega
        simp [strCmp, h1, h2]
      · by_cases h2 : b.toNat < a.toNat
        · simp [strCmp, h1, h2]
        · have heq : a = b := char_toNat_inj (by omega)
          subst heq
          simp [strCmp, lt_irrefl, ih]

theorem lexLt_trans {xs ys zs : List Char}
    (h1 : LexLt xs ys) (h2 : LexLt ys zs) : LexLt xs zs := by
  induction h1 generalizing zs with
  | nil c cs =>
    cases h2 with
    | head zs0 ws _ => exact LexLt.nil _ _
    | tail _ => exact LexLt.nil _ _
  | head xs0 ys0 hab =>
    cases h2 with
    | head _ _ hbd => exact LexLt.head _ _ (hab.trans hbd)
    | tail _ => exact LexLt.head _ _ hab
  | tail _ ih =>
    cases h2 with
    | head _ _ hlt => exact LexLt.head _ _ hlt
    | tail h => exact LexLt.tail (ih h)

/-- C5: `Symbol` ordering is exactly the lexicographic ordering of the
stored text — `lt`/`eq`/`gt` match the lexicographic relation, `eq`
coincides with equality, `gt` is the mirror of `lt`, and `lt` is
transitive — and sorting the symbols built from
`["beta", "alpha", "alpha_1", "alpha0"]` yields
`["alpha", "alpha0", "alpha_1", "beta"]`. -/
theorem symbol_cmp_lexicographic (a b c : Symbol) :
    (Symbol.cmp a b = Ordering.lt ↔ LexLt a.as_str b.as_str) ∧
    (Symbol.cmp a b = Ordering.eq ↔ a.as_str = b.as_str) ∧
    (Symbol.cmp a b = Ordering.gt ↔ LexLt b.as_str a.as_str) ∧
    (Symbol.cmp a b = Ordering.eq ↔ a.beq b = true) ∧
    (Symbol.cmp a b = Ordering.lt → Symbol.cmp b c = Ordering.lt →
      Symbol.cmp a c = Ordering.lt) ∧
    sort_symbols
        [⟨"beta".data⟩, ⟨"alpha".data⟩, ⟨"alpha_1".data⟩, ⟨"alpha0".data⟩] =
      [⟨"alpha".data⟩, ⟨"alpha0".data⟩, ⟨"alpha_1".data⟩, ⟨"beta".data⟩] := by
  refine ⟨strCmp_lt_iff _ _, strCmp_eq_iff _ _, ?_, ?_, ?_, by decide⟩
  · rw [Symbol.cmp, strCmp_gt_iff_lt]
    exact strCmp_lt_iff _ _
  · rw [Symbol.cmp, strCmp_eq_iff]
    simp [Symbol.beq, Symbol.as_str]
  · intro h1 h2
    rw [Symbol.cmp, strCmp_lt_iff] at *
    exact lexLt_trans h1 h2

/-- Witness for C5: transitivity of `lt` applied at the symbols holding
`"a"`, `"b"`, `"c"`. -/
theorem symbol_cmp_lexicographic_witness :
    Symbol.cmp ⟨['a']⟩ ⟨['c']⟩ = Ordering.lt :=
  (symbol_cmp_lexicographic ⟨['a']⟩ ⟨['b']⟩ ⟨['c']⟩).2.2.2.2.1
    (by decide) (by decide)

/-- C6: hashing is consistent with equality — equal `Symbol`s hash
identically for any hasher — and a `Symbol` hashes exactly as the plain
string holding the same characters (the derived impl hashes the stored
text, and `Borrow<str>` exposes that same text for container lookups), so
`Symbol` keys and string keys are interchangeable. -/
theorem hash_consistent_with_eq (hf : List Char → Nat) (a b : Symbol) :
    (a.beq b = true → Symbol.hash_with hf a = Symbol.hash_with hf b) ∧
    Symbol.hash_with hf a = hf (Symbol.as_str a) ∧
    Symbol.hash_with hf a = hf (Symbol.borrow a) := by
  refine ⟨?_, rfl, rfl⟩
  intro h
  simp only [Symbol.beq, beq_iff_eq] at h
  simp [Symbol.hash_with, h]

/-- Witness for C6: the hash-equality consequence applied with the length
function as hasher at two symbols holding `"ab"`. -/
theorem hash_consistent_with_eq_witness :
    Symbol.hash_with List.length ⟨['a', 'b']⟩ =
      Symbol.hash_with List.length ⟨['a', 'b']⟩ :=
  (hash_consistent_with_eq List.length ⟨['a', 'b']⟩ ⟨['a', 'b']⟩).1 (by decide)

/-- C7: every fallible text-to-Symbol entry point (`try_new`, `FromStr`,
`TryFrom<&str>`, `TryFrom<String>`) accepts and rejects exactly the same
inputs — they are all the same function — and any two `SymbolError`
values are equal, with one fixed display message independent of the
input. -/
theorem entry_points_agree (s : List Char) (e1 e2 : SymbolError) :
    Symbol.from_str s = Symbol.try_new s ∧
    Symbol.try_from_str s = Symbol.try_new s ∧
    Symbol.try_from_string s = Symbol.try_new s ∧
    e1 = e2 ∧
    SymbolError.display e1 = "value must match ^[a-z][a-z0-9_]*$".data := by
  refine ⟨rfl, rfl, rfl, ?_, rfl⟩
  cases e1
  cases e2
  rfl

/-- C8: every read-out operation surfaces the stored text unchanged —
`as_str`, the `Display` rendering, `From<Symbol> for String`,
`From<Symbol> for Box<str>`, and the `Deref`/`AsRef`/`Borrow` views all
return exactly the stored value, with no transformation. -/
theorem accessors_surface_value (sym : Symbol) :
    Symbol.as_str sym = sym.value ∧
    Symbol.display sym = sym.value ∧
    string_from_symbol sym = sym.value ∧
    boxed_str_from_symbol sym = sym.value ∧
    Symbol.deref sym = Symbol.as_str sym ∧
    Symbol.as_ref sym = Symbol.as_str sym ∧
    Symbol.borrow sym = Symbol.as_str sym :=
  ⟨rfl, rfl, rfl, rfl, rfl, rfl, rfl⟩

/-- C9: for every pair of `Symbol`s, `partial_cmp` is never `None`: it
returns `Some` of exactly `Ord::cmp`, so the manual `PartialOrd` impl can
never disagree with the total order. -/
theorem partial_cmp_eq_some_cmp (a b : Symbol) :
    Symbol.partial_cmp a b = some (Symbol.cmp a b) ∧
    (Symbol.partial_cmp a b).isSome = true :=
  ⟨rfl, rfl⟩

/-- C10: converting a `Symbol` to an owned `String` and constructing again
round-trips: for every valid `Symbol`, `try_new` on the extracted string
succeeds and returns an equal `Symbol`. -/
theorem string_roundtrip (sym : Symbol)
    (h : Symbol.is_valid sym.value = true) :
    Symbol.try_new (string_from_symbol sym) = Except.ok sym := by
  cases sym with
  | mk v =>
    have hv : Symbol.is_valid v = true := h
    simp [string_from_symbol, Symbol.try_new, hv]

/-- Witness for C10 at the symbol holding `"a"`. -/
theorem string_roundtrip_witness :
    Symbol.try_new (string_from_symbol ⟨['a']⟩) = Except.ok ⟨['a']⟩ :=
  string_roundtrip ⟨['a']⟩ (by decide)

end Maytrix
